import Mathlib

/-!
# Verification of AudioGlass TransparencyAudio ("Bare Metal" engine)

Shallow embedding of `src/native/TransparencyAudio.c` (and the ring-buffer
semantics it relies on) together with proofs of the testable properties of
the specification.

Modelling conventions:
* machine integers (`ma_uint32`) are modelled as `Nat`; all quantities that
  appear in the claims stay far below `2^32`, and the code performs no
  arithmetic that can wrap at 32 bits on those quantities (cursor arithmetic
  is done on monotone counters here, mirroring the spec's description of the
  cursors as "monotonically increasing, interpreted modulo capacity");
* `float` samples are modelled as `Rat`; every claim under study is about
  which samples are moved or multiplied where, never about IEEE rounding,
  so an exact field is a faithful carrier for `readPtr[i] * volume`;
* the device layer (WASAPI context / devices / MMCSS) is external to the
  repository; calls into it are modelled as boolean success oracles, and the
  resources it hands out as ownership flags.
-/

namespace AudioGlass

/-! ## List helpers used by the storage model -/

/-- Overwrite `st` starting at index `pos` with the values `vals`
(out-of-range positions are ignored, as `List.set`). This models a flat
`memcpy`-style write loop into buffer memory. -/
def overwriteAt : List Rat → Nat → List Rat → List Rat
  | st, _, [] => st
  | st, pos, v :: rest => overwriteAt (st.set pos v) (pos + 1) rest

/-- Read `len` samples of `st` starting at `pos` (missing cells read as `0`).
Models reading a contiguous region through a pointer. -/
def sliceD (st : List Rat) (pos len : Nat) : List Rat :=
  (List.range len).map (fun i => st.getD (pos + i) 0)


/-! ## ElasticRingBuffer

Modelled from the spec: the repository's ring buffer is miniaudio's
`ma_pcm_rb` (declared `ma_pcm_rb ringBuffer` in `ta_engine`,
TransparencyAudio.c:88), whose implementation `miniaudio.h` is a
dependency that is not part of the repository sources.  The model follows
spec §4.1 / §3: a fixed-capacity SPSC circular store with a monotonically
increasing read and write cursor interpreted modulo capacity;
`acquire_write(maxFrames)` grants `min(maxFrames, available_write,
contiguous span before the storage wrap)`, and symmetrically for reads;
`commit` advances the matching cursor; `reset` zeroes both cursors. -/

structure RingBuffer where
  capacity : Nat
  channels : Nat
  storage : List Rat
  readCursor : Nat
  writeCursor : Nat
deriving Repr, DecidableEq

namespace RingBuffer

/-- Frames ready to consume (`ma_pcm_rb_available_read`). -/
def availableRead (rb : RingBuffer) : Nat :=
  rb.writeCursor - rb.readCursor

/-- Free space in frames (`ma_pcm_rb_available_write`). -/
def availableWrite (rb : RingBuffer) : Nat :=
  rb.capacity - (rb.writeCursor - rb.readCursor)

/-- Contiguous span (in frames) from the write position to the storage wrap
boundary. -/
def contigWrite (rb : RingBuffer) : Nat :=
  rb.capacity - rb.writeCursor % rb.capacity

/-- Contiguous span (in frames) from the read position to the storage wrap
boundary. -/
def contigRead (rb : RingBuffer) : Nat :=
  rb.capacity - rb.readCursor % rb.capacity

/-- Number of frames granted by `ma_pcm_rb_acquire_write(maxFrames)`:
bounded by free space and by the wrap boundary. -/
def grantWrite (rb : RingBuffer) (maxFrames : Nat) : Nat :=
  min maxFrames (min rb.availableWrite rb.contigWrite)

/-- Number of frames granted by `ma_pcm_rb_acquire_read(maxFrames)`. -/
def grantRead (rb : RingBuffer) (maxFrames : Nat) : Nat :=
  min maxFrames (min rb.availableRead rb.contigRead)

/-- Sample index of the write region's start inside `storage`. -/
def writePos (rb : RingBuffer) : Nat :=
  (rb.writeCursor % rb.capacity) * rb.channels

/-- Sample index of the read region's start inside `storage`. -/
def readPos (rb : RingBuffer) : Nat :=
  (rb.readCursor % rb.capacity) * rb.channels

/-- Store `vals` into the acquired write region and commit `frames`
(`ma_pcm_rb_commit_write` after filling the acquired pointer). -/
def commitWrite (rb : RingBuffer) (vals : List Rat) (frames : Nat) : RingBuffer :=
  { rb with
    storage := overwriteAt rb.storage rb.writePos vals
    writeCursor := rb.writeCursor + frames }

/-- Advance the read cursor by `frames` (`ma_pcm_rb_commit_read`). -/
def commitRead (rb : RingBuffer) (frames : Nat) : RingBuffer :=
  { rb with readCursor := rb.readCursor + frames }

/-- `ma_pcm_rb_reset`: zero both cursors; storage contents are left as-is. -/
def reset (rb : RingBuffer) : RingBuffer :=
  { rb with readCursor := 0, writeCursor := 0 }

/-- A freshly initialised ring buffer (`ma_pcm_rb_init` over a
`capacity * channels`-sample arena; heap contents are modelled as zeros —
no claim depends on unwritten cells). -/
def init (capacity channels : Nat) : RingBuffer :=
  { capacity := capacity
    channels := channels
    storage := List.replicate (capacity * channels) 0
    readCursor := 0
    writeCursor := 0 }

/-- Cursor well-formedness: the write cursor is at or ahead of the read
cursor, and ahead by at most `capacity` frames. -/
def WF (rb : RingBuffer) : Prop :=
  rb.readCursor ≤ rb.writeCursor ∧ rb.writeCursor - rb.readCursor ≤ rb.capacity

instance (rb : RingBuffer) : Decidable rb.WF := by
  unfold WF; infer_instance

/-- One producer-side or consumer-side interaction, acquire/commit fused
(states "between a commit and the next acquire" are exactly the states
after each operation).  A write may commit at most the granted frames; a
read likewise. -/
inductive Op where
  | write (maxFrames : Nat) (vals : List Rat) (commit : Nat)
  | read (maxFrames : Nat) (commit : Nat)
  | reset
deriving Repr

/-- Apply one operation, respecting the acquire/commit contract (the commit
is clamped to the granted frame count, as the contract requires
`commit ≤ granted`). -/
def applyOp (rb : RingBuffer) : Op → RingBuffer
  | .write maxFrames vals commit =>
      rb.commitWrite vals (min commit (rb.grantWrite maxFrames))
  | .read maxFrames commit =>
      rb.commitRead (min commit (rb.grantRead maxFrames))
  | .reset => rb.reset

/-- All states reachable from a fresh buffer by a sequence of operations. -/
def applyOps (rb : RingBuffer) (ops : List Op) : RingBuffer :=
  ops.foldl applyOp rb

end RingBuffer

/-! ### The abstract readable contents of a ring buffer

`contents rb` lists the committed-but-unread samples, oldest first.  The
claims about data integrity ("previously committed buffer contents are
never modified", "the discarded frame appears in no output") are stated
against this abstraction. -/

namespace RingBuffer

/-- The `channels` samples stored at frame slot `slot`. -/
def frameAt (rb : RingBuffer) (slot : Nat) : List Rat :=
  sliceD rb.storage (slot * rb.channels) rb.channels

/-- The readable frames, oldest first, flattened to samples. -/
def contents (rb : RingBuffer) : List Rat :=
  ((List.range rb.availableRead).map
    (fun f => rb.frameAt ((rb.readCursor + f) % rb.capacity))).flatten

end RingBuffer

/-! ## Result codes (TransparencyAudio.h:57-68) -/

inductive TaResult where
  | TA_SUCCESS
  | TA_ERROR
  | TA_INVALID_ARGS
  | TA_INVALID_OPERATION
  | TA_OUT_OF_MEMORY
  | TA_DEVICE_NOT_INITIALIZED
  | TA_DEVICE_ALREADY_INITIALIZED
  | TA_DEVICE_NOT_STARTED
  | TA_DEVICE_NOT_STOPPED
  | TA_FAILED_TO_INIT_BACKEND
  | TA_FAILED_TO_OPEN_BACKEND_DEVICE
  | TA_FAILED_TO_START_BACKEND_DEVICE
deriving Repr, DecidableEq

/-! ## Engine state (`ta_engine`, TransparencyAudio.c:74-128)

Fields that only mirror the external device layer (device structs, device
info caches, callback pointers, the error-message text) are represented by
ownership flags / the last result code; everything the claims speak about
(lifecycle flags, cursors, counters, volume, the 8-entry last-sample
cache) is explicit. -/

structure Engine where
  rb : RingBuffer
  ringBufferSizeInFrames : Nat
  ringBufferTargetFrames : Nat
  channels : Nat
  initialized : Bool
  running : Bool
  volume : Rat
  underrunCount : Nat
  overrunCount : Nat
  driftCorrectionCount : Nat
  /-- `float lastSample[8]` (TransparencyAudio.c:105). -/
  lastSample : List Rat
  /-- `ta_result lastError` (the message text is not modelled). -/
  lastError : TaResult
  /-- ownership of the `ma_context` -/
  hasContext : Bool
  /-- ownership of the malloc'd ring-buffer arena -/
  hasRingMemory : Bool
  /-- ownership of the initialised `ma_pcm_rb` -/
  hasRB : Bool
  /-- ownership of the initialised capture device -/
  hasCaptureDevice : Bool
  /-- ownership of the initialised playback device -/
  hasPlaybackDevice : Bool
  /-- non-NULL `mmcssHandle` -/
  mmcssHandle : Bool
deriving Repr, DecidableEq

namespace Engine

/-- `static ta_engine g_engine = {0}` / `memset(&g_engine, 0, ...)`:
the all-zero engine. -/
def empty : Engine :=
  { rb := { capacity := 0, channels := 0, storage := [], readCursor := 0, writeCursor := 0 }
    ringBufferSizeInFrames := 0
    ringBufferTargetFrames := 0
    channels := 0
    initialized := false
    running := false
    volume := 0
    underrunCount := 0
    overrunCount := 0
    driftCorrectionCount := 0
    lastSample := List.replicate 8 0
    lastError := .TA_SUCCESS
    hasContext := false
    hasRingMemory := false
    hasRB := false
    hasCaptureDevice := false
    hasPlaybackDevice := false
    mmcssHandle := false }

/-- `set_last_error` (TransparencyAudio.c:134-142), message text omitted. -/
def setLastError (e : Engine) (r : TaResult) : Engine :=
  { e with lastError := r }

/-- Consistency of the engine with its ring buffer: the cached size and
channel count agree with the buffer, the storage arena has its allocated
length, and the cursors are well-formed.  Every state produced by a
successful `AudioEngine_Initialize` satisfies this and all engine
operations preserve it. -/
def WF (e : Engine) : Prop :=
  e.rb.capacity = e.ringBufferSizeInFrames ∧
  e.rb.channels = e.channels ∧
  e.rb.storage.length = e.rb.capacity * e.rb.channels ∧
  e.lastSample.length = 8 ∧
  e.rb.WF

instance (e : Engine) : Decidable e.WF := by
  unfold WF; infer_instance

end Engine

/-- The loop `for (ch = 0; ch < n; ch++) cache[ch] = vals[off + ch];`
updating the last-sample cache (TransparencyAudio.c:224-226 and 325-327). -/
def updateLastSample (cache vals : List Rat) (off : Nat) : Nat → List Rat
  | 0 => cache
  | n + 1 => (updateLastSample cache vals off n).set n (vals.getD (off + n) 0)

/-- One frame of the last-sample cache as emitted by the duplication loops
(`output[i*channels+ch] = lastSample[ch]`, TransparencyAudio.c:282-286 and
334-338). -/
def cacheFrame (cache : List Rat) (channels : Nat) : List Rat :=
  (List.range channels).map (fun c => cache.getD c 0)

/-! ## capture_callback (TransparencyAudio.c:185-232) -/

/-- `capture_callback`: writes `frameCount` captured frames (`input`, an
interleaved sample list) into the ring buffer with the volume applied.
A NULL `pInput` is modelled by the caller simply not invoking the
callback, as for `running == 0` the function returns with no effect. -/
def capture_callback (e : Engine) (input : List Rat) (frameCount : Nat) : Engine :=
  if ¬ e.running then e
  else
    -- lines 194-203: clamp to available space, counting one overrun
    let availableWrite := e.rb.availableWrite
    let e1 := if availableWrite < frameCount
      then { e with overrunCount := e.overrunCount + 1 }
      else e
    let framesToWrite := if availableWrite < frameCount then availableWrite else frameCount
    if framesToWrite = 0 then e1
    else
      -- line 210: ma_pcm_rb_acquire_write(&rb, &writeAvailable, &ptr)
      let writeAvailable := e1.rb.grantWrite framesToWrite
      -- lines 214-219: copy with volume applied into the acquired region
      let scaled := (input.take (writeAvailable * e1.channels)).map (fun s => s * e1.volume)
      -- lines 222-227: cache the last written frame
      let newCache :=
        updateLastSample e1.lastSample scaled ((writeAvailable - 1) * e1.channels) e1.channels
      let e2 := if 0 < writeAvailable then { e1 with lastSample := newCache } else e1
      -- line 229: ma_pcm_rb_commit_write(&rb, writeAvailable)
      { e2 with rb := e2.rb.commitWrite scaled writeAvailable }

/-! ## playback_callback (TransparencyAudio.c:245-340)

Split into the drift-decision phase (lines 257-310) and the read/pad phase
(lines 312-339); `playback_callback` is their composition exactly as in the
source. -/

/-- Result of the drift-decision phase: either the full-underrun early
return (lines 280-288) with its output, or the engine and `framesToRead`
with which the read phase proceeds. -/
inductive DriftOutcome where
  | earlyReturn (e : Engine) (out : List Rat)
  | proceed (e : Engine) (framesToRead : Nat)
deriving Repr

/-- The integer fill percentage computed at lines 261-263:
`(availableRead * 100) / ringBufferCapacity` (0 when the capacity is 0). -/
def fillPercent (e : Engine) : Nat :=
  if 0 < e.ringBufferSizeInFrames
  then e.rb.availableRead * 100 / e.ringBufferSizeInFrames
  else 0

/-- Drift-decision phase of `playback_callback` (lines 257-310). -/
def playback_drift (e : Engine) (frameCount : Nat) : DriftOutcome :=
  let availableRead := e.rb.availableRead
  if fillPercent e < 25 then
    if availableRead < frameCount then
      -- lines 277-278
      let e1 := { e with underrunCount := e.underrunCount + 1,
                         driftCorrectionCount := e.driftCorrectionCount + 1 }
      if availableRead = 0 then
        -- lines 280-288: complete underrun, emit the cached last sample
        .earlyReturn e1
          (List.flatten (List.replicate frameCount (cacheFrame e1.lastSample e1.channels)))
      else
        -- line 291: read what we have
        .proceed e1 availableRead
    else
      .proceed e frameCount
  else if 75 < fillPercent e ∧ frameCount + 1 < availableRead then
    -- lines 299-309: skip one frame (acquire 1, commit without copying);
    -- the availableRead recomputed at line 309 is not used afterwards
    let e1 := { e with driftCorrectionCount := e.driftCorrectionCount + 1 }
    let skipFrames := e1.rb.grantRead 1
    let e2 := { e1 with rb := e1.rb.commitRead skipFrames }
    .proceed e2 frameCount
  else
    .proceed e frameCount

/-- Read/pad phase of `playback_callback` (lines 312-339): a single
acquire/commit cycle copying the granted region to the output, refreshing
the last-sample cache from the final copied frame, then padding any
remaining frames with the cache. -/
def playback_read (e : Engine) (frameCount framesToRead : Nat) : Engine × List Rat :=
  -- line 317: ma_pcm_rb_acquire_read(&rb, &actualRead, &ptr)
  let actualRead := e.rb.grantRead framesToRead
  if 0 < actualRead then
    -- line 319: memcpy of the granted region
    let copied := sliceD e.rb.storage e.rb.readPos (actualRead * e.channels)
    -- lines 323-327: cache the final copied frame
    let newCache :=
      updateLastSample e.lastSample copied ((actualRead - 1) * e.channels) e.channels
    let e1 := { e with lastSample := newCache }
    -- line 329: commit
    let e2 := { e1 with rb := e1.rb.commitRead actualRead }
    -- lines 333-339: pad the remainder with the (refreshed) cache
    (e2, copied ++
      List.flatten (List.replicate (frameCount - actualRead) (cacheFrame e2.lastSample e2.channels)))
  else
    (e, List.flatten (List.replicate (frameCount - actualRead) (cacheFrame e.lastSample e.channels)))

/-- `playback_callback`: returns the new engine and the `frameCount * channels`
output samples handed to the hardware. -/
def playback_callback (e : Engine) (frameCount : Nat) : Engine × List Rat :=
  if ¬ e.running then
    -- lines 251-255: silence if not running
    (e, List.replicate (frameCount * e.channels) 0)
  else
    match playback_drift e frameCount with
    | .earlyReturn e1 out => (e1, out)
    | .proceed e1 framesToRead => playback_read e1 frameCount framesToRead

/-! ## Lifecycle API (TransparencyAudio.c:463-732)

Calls into the external device layer (`ma_context_init`,
`ma_context_get_devices`, `malloc`, `ma_pcm_rb_init`, `ma_device_init`,
`ma_device_start`, `AvSetMmThreadCharacteristicsW`) succeed or fail at the
device layer's discretion; each is modelled by a boolean success oracle.
The matching teardown calls (`ma_context_uninit`, `free`,
`ma_pcm_rb_uninit`, `ma_device_uninit`, `ma_device_stop`,
`AvRevertMmThreadCharacteristics`) always succeed and are modelled by
clearing the corresponding ownership flag. -/

/-- `ta_engine_config` (TransparencyAudio.h:116-133); only the fields the
engine logic reads are modelled (device-id strings, share mode, sample
rate etc. are consumed solely by the unmodelled device layer). -/
structure TaEngineConfig where
  sampleRate : Nat
  channels : Nat
  bufferSizeFrames : Nat
  volume : Rat
  ringBufferSizeFrames : Nat
deriving Repr, DecidableEq

/-- Success/failure of each external step taken by `AudioEngine_Initialize`. -/
structure InitOracle where
  contextOk : Bool
  enumOk : Bool
  mallocOk : Bool
  rbInitOk : Bool
  captureDevOk : Bool
  playbackDevOk : Bool
deriving Repr, DecidableEq

/-- `AudioEngine_Initialize` (TransparencyAudio.c:463-598).  `config = none`
models a NULL config pointer. -/
def AudioEngine_Initialize (e : Engine) (config : Option TaEngineConfig)
    (o : InitOracle) : TaResult × Engine :=
  match config with
  | none =>
      -- lines 466-469
      (.TA_INVALID_ARGS, e.setLastError .TA_INVALID_ARGS)
  | some cfg =>
      if e.initialized then
        -- lines 471-474
        (.TA_DEVICE_ALREADY_INITIALIZED, e.setLastError .TA_DEVICE_ALREADY_INITIALIZED)
      else
        -- lines 476-478: memset the engine, then set volume and channels
        let e0 := { Engine.empty with
          volume := cfg.volume
          channels := if 0 < cfg.channels then cfg.channels else 2 }
        if ¬ o.contextOk then
          -- lines 485-489
          (.TA_FAILED_TO_INIT_BACKEND, e0.setLastError .TA_FAILED_TO_INIT_BACKEND)
        else
          let e1 := { e0 with hasContext := true }
          if ¬ o.enumOk then
            -- lines 493-500: ma_context_uninit then fail
            (.TA_ERROR, Engine.setLastError { e1 with hasContext := false } .TA_ERROR)
          else
            -- lines 516-519: ring buffer sizing
            let cap := if 0 < cfg.ringBufferSizeFrames then cfg.ringBufferSizeFrames else 2048
            let e2 := { e1 with
              ringBufferSizeInFrames := cap
              ringBufferTargetFrames := cap * 50 / 100 }
            if ¬ o.mallocOk then
              -- lines 523-528
              (.TA_OUT_OF_MEMORY,
                Engine.setLastError { e2 with hasContext := false } .TA_OUT_OF_MEMORY)
            else
              let e3 := { e2 with hasRingMemory := true }
              if ¬ o.rbInitOk then
                -- lines 530-537
                (.TA_ERROR,
                  Engine.setLastError
                    { e3 with hasRingMemory := false, hasContext := false } .TA_ERROR)
              else
                let e4 := { e3 with
                  hasRB := true
                  rb := RingBuffer.init cap e3.channels }
                if ¬ o.captureDevOk then
                  -- lines 557-564
                  (.TA_FAILED_TO_OPEN_BACKEND_DEVICE,
                    Engine.setLastError
                      { e4 with hasRB := false, hasRingMemory := false, hasContext := false }
                      .TA_FAILED_TO_OPEN_BACKEND_DEVICE)
                else
                  let e5 := { e4 with hasCaptureDevice := true }
                  if ¬ o.playbackDevOk then
                    -- lines 584-592
                    let e6 := { e5 with hasCaptureDevice := false, hasRB := false, hasRingMemory := false, hasContext := false }
                    (.TA_FAILED_TO_OPEN_BACKEND_DEVICE,
                      e6.setLastError .TA_FAILED_TO_OPEN_BACKEND_DEVICE)
                  else
                    -- lines 594-597
                    (.TA_SUCCESS,
                      { e5 with hasPlaybackDevice := true, initialized := true, lastError := .TA_SUCCESS })

/-- `AudioEngine_Start` (TransparencyAudio.c:600-674).  `mmcssOk`,
`captureStartOk`, `playbackStartOk` are the external results of
`AvSetMmThreadCharacteristicsW` and the two `ma_device_start` calls. -/
def AudioEngine_Start (e : Engine)
    (mmcssOk captureStartOk playbackStartOk : Bool) : TaResult × Engine :=
  if ¬ e.initialized then
    -- lines 601-604
    (.TA_DEVICE_NOT_INITIALIZED, e.setLastError .TA_DEVICE_NOT_INITIALIZED)
  else if e.running then
    -- lines 606-608: already running, return success with no effect
    (.TA_SUCCESS, e)
  else
    -- lines 611-616: MMCSS registration (failure is non-fatal but notified)
    let e1 := { e with mmcssHandle := mmcssOk }
    let e1 := if mmcssOk then e1 else e1.setLastError .TA_ERROR
    -- lines 619-621: reset statistics
    let e2 := { e1 with underrunCount := 0, overrunCount := 0, driftCorrectionCount := 0 }
    -- line 624: ma_pcm_rb_reset
    let e3 := { e2 with rb := e2.rb.reset }
    -- line 627: clear the last-sample cache
    let e4 := { e3 with lastSample := List.replicate 8 0 }
    -- lines 634-641: pre-fill to the target level with silence
    let writeAvailable := e4.rb.grantWrite e4.ringBufferTargetFrames
    let prefilled := e4.rb.commitWrite (List.replicate (writeAvailable * e4.channels) 0) writeAvailable
    let e5 := { e4 with rb := prefilled }
    if ¬ captureStartOk then
      -- lines 644-652
      (.TA_FAILED_TO_START_BACKEND_DEVICE,
        Engine.setLastError { e5 with mmcssHandle := false } .TA_FAILED_TO_START_BACKEND_DEVICE)
    else if ¬ playbackStartOk then
      -- lines 655-664
      (.TA_FAILED_TO_START_BACKEND_DEVICE,
        Engine.setLastError { e5 with mmcssHandle := false } .TA_FAILED_TO_START_BACKEND_DEVICE)
    else
      -- lines 666-673
      (.TA_SUCCESS, { e5 with running := true, lastError := .TA_SUCCESS })

/-- `AudioEngine_Stop` (TransparencyAudio.c:676-704). -/
def AudioEngine_Stop (e : Engine) : TaResult × Engine :=
  if ¬ e.initialized then
    -- lines 677-680
    (.TA_DEVICE_NOT_INITIALIZED, e.setLastError .TA_DEVICE_NOT_INITIALIZED)
  else if ¬ e.running then
    -- lines 682-684: already stopped, return success with no effect
    (.TA_SUCCESS, e)
  else
    -- lines 687-703: stop both devices, revert MMCSS, clear running
    (.TA_SUCCESS, { e with mmcssHandle := false, running := false, lastError := .TA_SUCCESS })

/-- `AudioEngine_Uninitialize` of the C API (TransparencyAudio.c:706-732);
spelt with an s here. -/
def AudioEngine_Uninitialise (e : Engine) : TaResult × Engine :=
  if ¬ e.initialized then
    -- lines 707-709: nothing to uninitialize, no effect at all
    (.TA_SUCCESS, e)
  else
    -- lines 711-730: stop if running, release everything, memset to zero
    (.TA_SUCCESS, Engine.empty)

/-- `AudioEngine_SetVolume` (TransparencyAudio.c:734-740). -/
def AudioEngine_SetVolume (e : Engine) (volume : Rat) : TaResult × Engine :=
  let v := if volume < 0 then 0 else if 1 < volume then 1 else volume
  (.TA_SUCCESS, { e with volume := v })

/-! ## Derived views and concrete fixtures -/

/-- The spec-§3 `EngineState` projection: lifecycle flags, volume,
counters, last-sample cache and ring buffer.  The diagnostic last-error
code (set by `set_last_error` on every failure) is not part of the
engine state in the sense of the spec's data model. -/
def Engine.stateView (e : Engine) :
    Bool × Bool × Rat × Nat × Nat × Nat × List Rat × RingBuffer :=
  (e.initialized, e.running, e.volume, e.underrunCount, e.overrunCount,
    e.driftCorrectionCount, e.lastSample, e.rb)

/-- An oracle under which every external device-layer step succeeds. -/
def InitOracle.allOk : InitOracle :=
  { contextOk := true, enumOk := true, mallocOk := true,
    rbInitOk := true, captureDevOk := true, playbackDevOk := true }

/-- Mono configuration with a 4-frame elastic buffer, used for the concrete
executions below. -/
def fixtureConfig : TaEngineConfig :=
  { sampleRate := 48000, channels := 1, bufferSizeFrames := 128,
    volume := 1, ringBufferSizeFrames := 4 }

/-- Engine after `Initialize(fixtureConfig)` with all external steps
succeeding. -/
def fixtureInit : Engine :=
  (AudioEngine_Initialize Engine.empty (some fixtureConfig) InitOracle.allOk).2

/-- Engine after `Initialize` then `Start` (everything succeeding):
running, ring buffer pre-filled with 2 frames of silence. -/
def fixtureStarted : Engine :=
  (AudioEngine_Start fixtureInit true true true).2

/-- Reachable state with `writeCursor = 3`, `readCursor = 1`: play one
frame of the pre-fill, then capture one frame of value 7.  The next write
wraps after one frame. -/
def fixtureWrapWrite : Engine :=
  capture_callback (playback_callback fixtureStarted 1).1 [7] 1

/-- Reachable state with `writeCursor = 5`, `readCursor = 3` and readable
contents `[2, 5]`: the next read wraps after one frame. -/
def fixtureWrapRead : Engine :=
  (playback_callback
    (capture_callback
      (capture_callback (playback_callback fixtureStarted 2).1 [1, 2, 3] 3)
      [5] 1)
    1).1

/-- Reachable state with an empty buffer (`available_read() == 0`) and a
cached last sample of 5. -/
def fixtureEmptyCached : Engine :=
  (playback_callback (playback_callback fixtureWrapRead 1).1 1).1

/-- Reachable state with a 100%-full 4-frame buffer (fill > 75%),
for the high-fill drift-correction scenario. -/
def fixtureHighFill : Engine :=
  capture_callback fixtureStarted [1, 2] 2

/-- Mono configuration with an 8-frame elastic buffer (spec Scenario A). -/
def fixtureConfig8 : TaEngineConfig :=
  { fixtureConfig with ringBufferSizeFrames := 8 }

/-- Engine after `Initialize(fixtureConfig8)` then `Start`. -/
def fixture8Started : Engine :=
  (AudioEngine_Start
    (AudioEngine_Initialize Engine.empty (some fixtureConfig8) InitOracle.allOk).2
    true true true).2

/-- Scenario A state: capacity-8 mono buffer holding 8 frames of value 1
(completely full). -/
def fixture8Full : Engine :=
  capture_callback
    (capture_callback (playback_callback fixture8Started 4).1 [1, 1, 1, 1] 4)
    [1, 1, 1, 1] 4

/-! ## Proof development -/

theorem overwriteAt_length (vals : List Rat) :
    ∀ (st : List Rat) (pos : Nat), (overwriteAt st pos vals).length = st.length := by
  induction vals with
  | nil => intro st pos; rfl
  | cons v rest ih =>
      intro st pos
      simp [overwriteAt, ih]

/-- Cells strictly before the overwritten region are untouched. -/
theorem overwriteAt_getD_lt (vals : List Rat) :
    ∀ (st : List Rat) (pos i : Nat), i < pos →
      (overwriteAt st pos vals).getD i 0 = st.getD i 0 := by
  induction vals with
  | nil => intro st pos i _; rfl
  | cons v rest ih =>
      intro st pos i hi
      rw [overwriteAt, ih _ _ _ (Nat.lt_succ_of_lt hi)]
      rcases Nat.lt_or_ge i st.length with h | h
      · rw [List.getD_eq_getElem _ _ h, List.getD_eq_getElem,
          List.getElem_set_ne (by omega)]
        · simpa using h
      · rw [List.getD_eq_default _ _ (by simpa using h),
          List.getD_eq_default _ _ h]

/-- Cells at or beyond the end of the overwritten region are untouched. -/
theorem overwriteAt_getD_ge (vals : List Rat) :
    ∀ (st : List Rat) (pos i : Nat), pos + vals.length ≤ i →
      (overwriteAt st pos vals).getD i 0 = st.getD i 0 := by
  induction vals with
  | nil => intro st pos i _; rfl
  | cons v rest ih =>
      intro st pos i hi
      simp only [List.length_cons] at hi
      rw [overwriteAt, ih _ _ _ (by omega)]
      rcases Nat.lt_or_ge i st.length with h | h
      · rw [List.getD_eq_getElem _ _ h, List.getD_eq_getElem,
          List.getElem_set_ne (by omega)]
        · simpa using h
      · rw [List.getD_eq_default _ _ (by simpa using h),
          List.getD_eq_default _ _ h]

/-- Cells inside the overwritten region (and inside the list) hold the new
values. -/
theorem overwriteAt_getD_mem (vals : List Rat) :
    ∀ (st : List Rat) (pos j : Nat), j < vals.length → pos + j < st.length →
      (overwriteAt st pos vals).getD (pos + j) 0 = vals.getD j 0 := by
  induction vals with
  | nil => intro st pos j hj _; exact absurd hj (by simp)
  | cons v rest ih =>
      intro st pos j hj hlen
      match j with
      | 0 =>
          rw [overwriteAt, overwriteAt_getD_lt rest _ _ _ (by omega)]
          rw [Nat.add_zero, List.getD_eq_getElem _ _ (by simpa using hlen)]
          simp [List.getElem_set]
      | j' + 1 =>
          rw [overwriteAt]
          have harr : pos + (j' + 1) = (pos + 1) + j' := by omega
          rw [harr, ih _ _ _ (by simpa using hj) (by simp; omega)]
          rfl

namespace RingBuffer

theorem wf_init (capacity channels : Nat) : (init capacity channels).WF := by
  constructor <;> simp [init]

theorem wf_applyOp {rb : RingBuffer} (h : rb.WF) (op : Op) : (rb.applyOp op).WF := by
  obtain ⟨h1, h2⟩ := h
  cases op with
  | write maxFrames vals commit =>
      refine ⟨?_, ?_⟩ <;>
        simp only [applyOp, commitWrite, grantWrite, availableWrite, contigWrite] <;>
        omega
  | read maxFrames commit =>
      refine ⟨?_, ?_⟩ <;>
        simp only [applyOp, commitRead, grantRead, availableRead, contigRead] <;>
        omega
  | reset => exact ⟨Nat.le_refl 0, by simp [applyOp, reset]⟩

theorem wf_applyOps {rb : RingBuffer} (h : rb.WF) (ops : List Op) :
    (rb.applyOps ops).WF := by
  induction ops generalizing rb with
  | nil => exact h
  | cons op rest ih => exact ih (wf_applyOp h op)

theorem capacity_applyOps (rb : RingBuffer) (ops : List Op) :
    (rb.applyOps ops).capacity = rb.capacity := by
  induction ops generalizing rb with
  | nil => rfl
  | cons op rest ih =>
      rw [applyOps, List.foldl_cons, ← applyOps, ih]
      cases op <;> rfl

theorem read_add_write_of_wf {rb : RingBuffer} (h : rb.WF) :
    rb.availableRead + rb.availableWrite = rb.capacity := by
  obtain ⟨h1, h2⟩ := h
  simp only [availableRead, availableWrite]
  omega

theorem sliceD_length (st : List Rat) (pos len : Nat) :
    (sliceD st pos len).length = len := by
  simp [sliceD]

theorem sliceD_add (st : List Rat) (pos a b : Nat) :
    sliceD st pos (a + b) = sliceD st pos a ++ sliceD st (pos + a) b := by
  simp only [sliceD, List.range_add, List.map_append, List.map_map]
  congr 1
  apply List.map_congr_left
  intro i _
  simp [Function.comp, Nat.add_assoc]

theorem sliceD_self (st : List Rat) : sliceD st 0 st.length = st := by
  apply List.ext_getElem
  · simp [sliceD_length]
  · intro i h1 h2
    simp only [sliceD, List.getElem_map, List.getElem_range]
    rw [Nat.zero_add, List.getD_eq_getElem _ _ h2]

/-- A list of length `g * ch` equals the concatenation of its `g` chunks of
length `ch`. -/
theorem flatten_chunks (vals : List Rat) (ch : Nat) :
    ∀ g : Nat, ((List.range g).map (fun t => sliceD vals (t * ch) ch)).flatten =
      sliceD vals 0 (g * ch) := by
  intro g
  induction g with
  | zero => simp [sliceD]
  | succ g ih =>
      rw [List.range_succ, List.map_append, List.flatten_append, ih]
      have h1 : (g + 1) * ch = g * ch + ch := by ring
      rw [h1, sliceD_add, Nat.zero_add]
      simp

theorem mul_index_lt {s t c ch : Nat} (hst : s < t) (hc : c < ch) :
    s * ch + c < t * ch := by
  have h1 : (s + 1) * ch ≤ t * ch := Nat.mul_le_mul_right ch hst
  have h2 : (s + 1) * ch = s * ch + ch := by ring
  omega

theorem mul_index_ge {s t c ch : Nat} (hst : t ≤ s) : t * ch ≤ s * ch + c := by
  have h1 : t * ch ≤ s * ch := Nat.mul_le_mul_right ch hst
  omega

theorem add_mod_eq_of_lt {w t cap : Nat} (ht : w % cap + t < cap) :
    (w + t) % cap = w % cap + t := by
  conv_lhs => rw [Nat.add_mod]
  rw [Nat.mod_eq_of_lt (show t < cap by omega), Nat.mod_eq_of_lt ht]

/-- The frame slot of a readable frame never coincides with a slot of the
(wrap-bounded) acquired write region. -/
theorem slot_disjoint {cap r w f t g : Nat} (hcap : 0 < cap) (hrw : r ≤ w)
    (hf : f < w - r) (ht : t < g)
    (hgA : g ≤ cap - (w - r)) (hgC : g ≤ cap - w % cap) :
    (r + f) % cap ≠ w % cap + t := by
  intro heq
  have hwm : w % cap < cap := Nat.mod_lt _ hcap
  have h1 : (w + t) % cap = w % cap + t := add_mod_eq_of_lt (by omega)
  have h2 : (r + f) % cap = (w + t) % cap := by rw [heq, h1]
  have hle : r + f ≤ w + t := by omega
  have hdvd : cap ∣ (w + t) - (r + f) := (Nat.modEq_iff_dvd' hle).mp h2
  have hz := Nat.eq_zero_of_dvd_of_lt hdvd (show (w + t) - (r + f) < cap by omega)
  omega

theorem contents_length (rb : RingBuffer) :
    rb.contents.length = rb.availableRead * rb.channels := by
  simp only [contents, List.length_flatten, List.map_map]
  have h : ∀ f : Nat,
      (rb.frameAt ((rb.readCursor + f) % rb.capacity)).length = rb.channels := by
    intro f; simp [frameAt, sliceD_length]
  calc ((List.range rb.availableRead).map
          (List.length ∘ fun f => rb.frameAt ((rb.readCursor + f) % rb.capacity))).sum
      = ((List.range rb.availableRead).map (fun _ => rb.channels)).sum := by
        apply congrArg
        apply List.map_congr_left
        intro f _
        exact h f
    _ = rb.availableRead * rb.channels := by
        rw [List.map_const', List.sum_replicate, List.length_range, smul_eq_mul]

/-- Generalised chunking: the flattened `g` frames starting at sample
offset `pos` form the contiguous `g * ch`-sample slice at `pos`. -/
theorem flatten_frames (st : List Rat) (pos ch : Nat) :
    ∀ g : Nat, ((List.range g).map (fun t => sliceD st (pos + t * ch) ch)).flatten =
      sliceD st pos (g * ch) := by
  intro g
  induction g with
  | zero => simp [sliceD]
  | succ g ih =>
      rw [List.range_succ, List.map_append, List.flatten_append, ih]
      have h1 : (g + 1) * ch = g * ch + ch := by ring
      rw [h1, sliceD_add]
      simp

/-- Committing a read drops the corresponding sample prefix from the
readable contents. -/
theorem contents_commitRead (rb : RingBuffer) (k : Nat) (hk : k ≤ rb.availableRead) :
    (rb.commitRead k).contents = rb.contents.drop (k * rb.channels) := by
  have havail : (rb.commitRead k).availableRead = rb.availableRead - k := by
    simp only [commitRead, availableRead]
    omega
  have hsplit : rb.availableRead = k + (rb.availableRead - k) := by omega
  conv_rhs => rw [contents, hsplit, List.range_add, List.map_append, List.flatten_append]
  have hlen : (((List.range k).map
      (fun f => rb.frameAt ((rb.readCursor + f) % rb.capacity))).flatten).length
      = k * rb.channels := by
    rw [List.length_flatten, List.map_map]
    have : ((List.range k).map
        (List.length ∘ fun f => rb.frameAt ((rb.readCursor + f) % rb.capacity)))
        = (List.range k).map (fun _ => rb.channels) := by
      apply List.map_congr_left
      intro f _
      simp [frameAt, sliceD_length]
    rw [this, List.map_const', List.sum_replicate, List.length_range, smul_eq_mul]
  rw [← hlen, List.drop_left]
  rw [contents, havail]
  simp only [commitRead, List.map_map]
  apply congrArg
  apply List.map_congr_left
  intro f _
  simp only [Function.comp]
  have : rb.readCursor + k + f = rb.readCursor + (k + f) := by omega
  rw [this]
  rfl

/-- Filling a (wrap-bounded, space-bounded) acquired write region and
committing it appends exactly the written samples to the readable
contents, leaving every previously committed frame untouched. -/
theorem contents_commitWrite (rb : RingBuffer) (vals : List Rat) (g : Nat)
    (hwf : rb.WF) (hcap : 0 < rb.capacity)
    (hst : rb.storage.length = rb.capacity * rb.channels)
    (hv : vals.length = g * rb.channels)
    (hgA : g ≤ rb.availableWrite) (hgC : g ≤ rb.contigWrite) :
    (rb.commitWrite vals g).contents = rb.contents ++ vals := by
  obtain ⟨hrw, hdist⟩ := hwf
  have hwm : rb.writeCursor % rb.capacity < rb.capacity := Nat.mod_lt _ hcap
  simp only [availableWrite] at hgA
  simp only [contigWrite] at hgC
  have havail : (rb.commitWrite vals g).availableRead = rb.availableRead + g := by
    simp only [commitWrite, availableRead]
    omega
  rw [contents, havail, List.range_add, List.map_append, List.flatten_append]
  congr 1
  · -- previously committed frames are untouched by the write
    rw [contents]
    apply congrArg
    apply List.map_congr_left
    intro f hf
    rw [List.mem_range] at hf
    simp only [availableRead] at hf
    simp only [commitWrite, frameAt, sliceD]
    apply List.map_congr_left
    intro c hc
    rw [List.mem_range] at hc
    set s := (rb.readCursor + f) % rb.capacity with hs
    set wm := rb.writeCursor % rb.capacity with hwmdef
    rcases Nat.lt_or_ge s wm with hcase | hcase
    · exact overwriteAt_getD_lt _ _ _ _ (by
        simp only [writePos, ← hwmdef]
        exact mul_index_lt hcase hc)
    · rcases Nat.lt_or_ge s (wm + g) with hmid | hout
      · exfalso
        exact @slot_disjoint rb.capacity rb.readCursor rb.writeCursor f (s - wm) g
          hcap hrw (by simpa [availableRead] using hf) (by omega)
          (by omega) (by omega) (by omega)
      · exact overwriteAt_getD_ge _ _ _ _ (by
          simp only [writePos, ← hwmdef, hv]
          have h1 : (wm + g) * rb.channels ≤ s * rb.channels + c :=
            mul_index_ge hout
          have h2 : (wm + g) * rb.channels
              = wm * rb.channels + g * rb.channels := by ring
          omega)
  · -- the appended frames hold exactly the written samples
    have hframes : ((List.range g).map
        (fun t => (rb.commitWrite vals g).frameAt
          (((rb.commitWrite vals g).readCursor + (rb.availableRead + t))
            % (rb.commitWrite vals g).capacity)))
        = (List.range g).map (fun t => sliceD vals (0 + t * rb.channels) rb.channels) := by
      apply List.map_congr_left
      intro t ht
      rw [List.mem_range] at ht
      have hcursor : (rb.commitWrite vals g).readCursor + (rb.availableRead + t)
          = rb.writeCursor + t := by
        simp only [commitWrite, availableRead]
        omega
      have hmod : (rb.writeCursor + t) % rb.capacity
          = rb.writeCursor % rb.capacity + t := add_mod_eq_of_lt (by omega)
      simp only [commitWrite] at hcursor ⊢
      rw [hcursor, hmod]
      simp only [frameAt, sliceD]
      apply List.map_congr_left
      intro c hc
      rw [List.mem_range] at hc
      have hidx : (rb.writeCursor % rb.capacity + t) * rb.channels + c
          = rb.writePos + (t * rb.channels + c) := by
        simp only [writePos]; ring
      rw [hidx, overwriteAt_getD_mem vals _ _ _
        (by rw [hv]; exact mul_index_lt ht hc)
        (by
          rw [hst]
          simp only [writePos]
          have h1 : (rb.writeCursor % rb.capacity + t) * rb.channels + c
              < rb.capacity * rb.channels := mul_index_lt (by omega) hc
          have h2 : (rb.writeCursor % rb.capacity + t) * rb.channels + c
              = rb.writeCursor % rb.capacity * rb.channels
                + (t * rb.channels + c) := by ring
          omega)]
      simp [Nat.zero_add]
    rw [List.map_map]
    rw [show ((fun f => (rb.commitWrite vals g).frameAt
        (((rb.commitWrite vals g).readCursor + f) % (rb.commitWrite vals g).capacity))
        ∘ fun x => rb.availableRead + x)
      = (fun t => (rb.commitWrite vals g).frameAt
        (((rb.commitWrite vals g).readCursor + (rb.availableRead + t))
          % (rb.commitWrite vals g).capacity)) from rfl]
    rw [hframes, flatten_frames, ← hv, sliceD_self]

/-- For a wrap-free read request, the acquired region is exactly the
corresponding prefix of the readable contents. -/
theorem sliceD_eq_contents_take (rb : RingBuffer) (g : Nat)
    (hcap : 0 < rb.capacity) (hg1 : g ≤ rb.availableRead) (hg2 : g ≤ rb.contigRead) :
    sliceD rb.storage rb.readPos (g * rb.channels) =
      rb.contents.take (g * rb.channels) := by
  have hsplit : rb.availableRead = g + (rb.availableRead - g) := by omega
  conv_rhs => rw [contents, hsplit, List.range_add, List.map_append, List.flatten_append]
  have hlen : (((List.range g).map
      (fun f => rb.frameAt ((rb.readCursor + f) % rb.capacity))).flatten).length
      = g * rb.channels := by
    rw [List.length_flatten, List.map_map]
    have : ((List.range g).map
        (List.length ∘ fun f => rb.frameAt ((rb.readCursor + f) % rb.capacity)))
        = (List.range g).map (fun _ => rb.channels) := by
      apply List.map_congr_left
      intro f _
      simp [frameAt, sliceD_length]
    rw [this, List.map_const', List.sum_replicate, List.length_range, smul_eq_mul]
  conv_rhs => rw [← hlen, List.take_left]
  have hframes : ((List.range g).map
      (fun f => rb.frameAt ((rb.readCursor + f) % rb.capacity)))
      = (List.range g).map (fun f => sliceD rb.storage (rb.readPos + f * rb.channels) rb.channels) := by
    apply List.map_congr_left
    intro f hf
    rw [List.mem_range] at hf
    have hmod : (rb.readCursor + f) % rb.capacity = rb.readCursor % rb.capacity + f := by
      apply add_mod_eq_of_lt
      have := rb.contigRead
      simp only [contigRead] at hg2
      have hrm : rb.readCursor % rb.capacity < rb.capacity := Nat.mod_lt _ hcap
      omega
    rw [hmod, frameAt, readPos]
    have : (rb.readCursor % rb.capacity + f) * rb.channels
        = rb.readCursor % rb.capacity * rb.channels + f * rb.channels := by ring
    rw [this]
  rw [hframes, flatten_frames]

end RingBuffer

/-! ### Lifecycle no-ops (C7) -/

/-- C7: `start()` invoked while already Running, `stop()` invoked while
Initialized but not Running, and `uninitialize()` invoked while Idle are
no-ops returning `TA_SUCCESS`: the entire engine record — lifecycle
state, counters, buffer cursors, volume, cache (and even the diagnostic
last-error code) — is returned unchanged. -/
theorem lifecycle_noops (e : Engine) (mmcssOk captureStartOk playbackStartOk : Bool) :
    (e.initialized = true → e.running = true →
      AudioEngine_Start e mmcssOk captureStartOk playbackStartOk = (.TA_SUCCESS, e)) ∧
    (e.initialized = true → e.running = false →
      AudioEngine_Stop e = (.TA_SUCCESS, e)) ∧
    (e.initialized = false →
      AudioEngine_Uninitialise e = (.TA_SUCCESS, e)) := by
  refine ⟨?_, ?_, ?_⟩
  · intro h1 h2
    simp [AudioEngine_Start, h1, h2]
  · intro h1 h2
    simp [AudioEngine_Stop, h1, h2]
  · intro h1
    simp [AudioEngine_Uninitialise, h1]

/-- Witness for C7: the no-ops evaluated at the concrete running fixture,
the concrete initialized-not-running fixture, and the all-zero idle
engine. -/
theorem lifecycle_noops_witness :
    AudioEngine_Start fixtureStarted true true true = (.TA_SUCCESS, fixtureStarted) ∧
    AudioEngine_Stop fixtureInit = (.TA_SUCCESS, fixtureInit) ∧
    AudioEngine_Uninitialise Engine.empty = (.TA_SUCCESS, Engine.empty) := by
  refine ⟨?_, ?_, ?_⟩
  · exact (lifecycle_noops fixtureStarted true true true).1 (by decide) (by decide)
  · exact (lifecycle_noops fixtureInit true true true).2.1 (by decide) (by decide)
  · exact (lifecycle_noops Engine.empty true true true).2.2 (by decide)

/-! ### Complete underrun (C3) -/

/-- C3: a playback invocation while Running requesting `n ≥ 1` frames with
`available_read() == 0` outputs `n` copies of the cached last sample on
every channel, increments the underrun and drift-correction counters by
exactly 1 each, and performs no ring-buffer read: the returned engine
differs from the input only in those two counters (in particular the read
cursor, and the whole ring buffer, are unchanged). -/
theorem playback_full_underrun (e : Engine) (n : Nat)
    (hrun : e.running = true) (havail : e.rb.availableRead = 0) (hn : 1 ≤ n) :
    playback_callback e n
      = ({ e with underrunCount := e.underrunCount + 1,
                  driftCorrectionCount := e.driftCorrectionCount + 1 },
         List.flatten (List.replicate n (cacheFrame e.lastSample e.channels))) := by
  have hfill : fillPercent e = 0 := by
    simp [fillPercent, havail]
  have hlt : e.rb.availableRead < n := by omega
  have hn' : 0 < n := hn
  simp [playback_callback, playback_drift, hrun, hfill, havail, hlt, hn']

/-- Witness for C3: the empty-buffer fixture (capacity 4, mono, cached
last sample 5) asked for 2 frames outputs `[5, 5]` and bumps both
counters from 0 to 1. -/
theorem playback_full_underrun_witness :
    (playback_callback fixtureEmptyCached 2).2 = [5, 5] ∧
    (playback_callback fixtureEmptyCached 2).1.underrunCount = 1 ∧
    (playback_callback fixtureEmptyCached 2).1.driftCorrectionCount = 1 ∧
    (playback_callback fixtureEmptyCached 2).1.rb = fixtureEmptyCached.rb := by
  have h := playback_full_underrun fixtureEmptyCached 2
    (by decide) (by decide) (by decide)
  rw [h]
  refine ⟨?_, by decide, by decide, rfl⟩
  norm_num [fixtureEmptyCached, fixtureWrapRead, fixtureStarted, fixtureInit, fixtureConfig,
    AudioEngine_Initialize, AudioEngine_Start, InitOracle.allOk, Engine.empty,
    capture_callback, playback_callback, playback_drift, playback_read, fillPercent,
    cacheFrame, updateLastSample, overwriteAt, sliceD,
    RingBuffer.availableRead, RingBuffer.availableWrite, RingBuffer.grantRead,
    RingBuffer.grantWrite, RingBuffer.contigRead, RingBuffer.contigWrite,
    RingBuffer.commitRead, RingBuffer.commitWrite, RingBuffer.readPos, RingBuffer.writePos,
    RingBuffer.reset, RingBuffer.init, Engine.setLastError]
  decide

/-! ### High-fill discard leaves the cache alone (C8) -/

/-- C8: when the high-fill one-frame discard is performed (fill above 75%
and `available_read() > frameCount + 1`), the drift phase commits the
discarded frame (read cursor advances by 1) and proceeds with the
last-sample cache exactly as it was before the invocation. -/
theorem highfill_discard_preserves_cache (e : Engine) (n : Nat)
    (hwf : e.WF) (hfill : 75 < fillPercent e) (hn : n + 1 < e.rb.availableRead) :
    ∃ e2 : Engine, playback_drift e n = .proceed e2 n ∧
      e2.lastSample = e.lastSample ∧
      e2.rb.readCursor = e.rb.readCursor + 1 ∧
      e2.driftCorrectionCount = e.driftCorrectionCount + 1 := by
  have hcap : 0 < e.ringBufferSizeInFrames := by
    by_contra h
    have h0 : e.ringBufferSizeInFrames = 0 := by omega
    have hz : fillPercent e = 0 := by simp [fillPercent, h0]
    omega
  have hcapeq : e.rb.capacity = e.ringBufferSizeInFrames := hwf.1
  have hnot25 : ¬ fillPercent e < 25 := by omega
  have hgrant : e.rb.grantRead 1 = 1 := by
    have h1 : 0 < e.rb.availableRead := by omega
    have h2 : e.rb.readCursor % e.rb.capacity < e.rb.capacity :=
      Nat.mod_lt _ (by omega)
    simp only [RingBuffer.grantRead, RingBuffer.contigRead]
    omega
  have hdrift : playback_drift e n
      = .proceed ({ e with driftCorrectionCount := e.driftCorrectionCount + 1,
                           rb := e.rb.commitRead 1 }) n := by
    simp only [playback_drift]
    rw [if_neg hnot25, if_pos (show 75 < fillPercent e ∧ n + 1 < e.rb.availableRead
      from ⟨hfill, hn⟩)]
    simp [hgrant]
  exact ⟨_, hdrift, rfl, by simp [RingBuffer.commitRead], rfl⟩

/-- Witness for C8: the full 4-frame fixture (fill 100%) asked for 1 frame
(4 > 1 + 1) discards one frame with the cache untouched. -/
theorem highfill_discard_preserves_cache_witness :
    ∃ e2 : Engine, playback_drift fixtureHighFill 1 = .proceed e2 1 ∧
      e2.lastSample = fixtureHighFill.lastSample ∧
      e2.rb.readCursor = fixtureHighFill.rb.readCursor + 1 ∧
      e2.driftCorrectionCount = fixtureHighFill.driftCorrectionCount + 1 :=
  highfill_discard_preserves_cache fixtureHighFill 1 (by decide) (by decide) (by decide)

/-! ### Initialize error handling and rollback (C9) -/

/-- C9: `Initialize` returns the configuration error `TA_INVALID_ARGS`
on a NULL config and `TA_DEVICE_ALREADY_INITIALIZED` when not Idle, in
both cases leaving the engine state (the spec-§3 `stateView`: lifecycle,
volume, counters, cache, buffer) unchanged; and on every failure of the
allocation/binding sequence the engine retains no resource and is left
Idle. -/
theorem initialize_error_handling (e : Engine) (cfg : TaEngineConfig) (o : InitOracle) :
    ((AudioEngine_Initialize e none o).1 = .TA_INVALID_ARGS ∧
      (AudioEngine_Initialize e none o).2.stateView = e.stateView) ∧
    (e.initialized = true →
      (AudioEngine_Initialize e (some cfg) o).1 = .TA_DEVICE_ALREADY_INITIALIZED ∧
      (AudioEngine_Initialize e (some cfg) o).2.stateView = e.stateView) ∧
    (e.initialized = false →
      (AudioEngine_Initialize e (some cfg) o).1 ≠ .TA_SUCCESS →
      (AudioEngine_Initialize e (some cfg) o).2.initialized = false ∧
      (AudioEngine_Initialize e (some cfg) o).2.hasContext = false ∧
      (AudioEngine_Initialize e (some cfg) o).2.hasRingMemory = false ∧
      (AudioEngine_Initialize e (some cfg) o).2.hasRB = false ∧
      (AudioEngine_Initialize e (some cfg) o).2.hasCaptureDevice = false ∧
      (AudioEngine_Initialize e (some cfg) o).2.hasPlaybackDevice = false) := by
  obtain ⟨co, eo, mo, ro, cdo, pdo⟩ := o
  refine ⟨⟨rfl, rfl⟩, ?_, ?_⟩
  · intro h
    constructor <;> simp [AudioEngine_Initialize, h, Engine.stateView, Engine.setLastError]
  · intro h hres
    cases co <;> cases eo <;> cases mo <;> cases ro <;> cases cdo <;> cases pdo <;>
      simp_all [AudioEngine_Initialize, Engine.setLastError, Engine.empty]

/-- Witness for C9: a concrete initialized engine rejected with
`AlreadyInitialized`, and a concrete failure (playback device refusing to
open) ending with no retained resource and state Idle. -/
theorem initialize_error_handling_witness :
    ((AudioEngine_Initialize fixtureInit (some fixtureConfig)
        InitOracle.allOk).1 = .TA_DEVICE_ALREADY_INITIALIZED ∧
      (AudioEngine_Initialize fixtureInit (some fixtureConfig)
        InitOracle.allOk).2.stateView = fixtureInit.stateView) ∧
    ((AudioEngine_Initialize Engine.empty (some fixtureConfig)
        { InitOracle.allOk with playbackDevOk := false }).1 ≠ .TA_SUCCESS ∧
      (AudioEngine_Initialize Engine.empty (some fixtureConfig)
        { InitOracle.allOk with playbackDevOk := false }).2.initialized = false ∧
      (AudioEngine_Initialize Engine.empty (some fixtureConfig)
        { InitOracle.allOk with playbackDevOk := false }).2.hasContext = false) := by
  have hb := (initialize_error_handling fixtureInit fixtureConfig
    InitOracle.allOk).2.1 (by decide)
  have hc := (initialize_error_handling Engine.empty fixtureConfig
    { InitOracle.allOk with playbackDevOk := false }).2.2 (by decide) (by decide)
  exact ⟨hb, by decide, hc.1, hc.2.1⟩

/-! ### Channel count and the 8-entry cache (C10) -/

/-- C10: with a channel count of at most 8 every access to the 8-entry
last-sample cache stays in bounds — the cache-update loop
(`updateLastSample`, run with `n = channels`) leaves every index ≥ 8
untouched, and the cache-read loop (`cacheFrame`) depends only on the
first 8 entries; and `Initialize` performs no check rejecting larger
channel counts: any `cfg.channels > 0` is accepted verbatim (0 defaults
to 2). -/
theorem updateLastSample_length (cache vals : List Rat) (off : Nat) :
    ∀ n, (updateLastSample cache vals off n).length = cache.length := by
  intro n
  induction n with
  | zero => rfl
  | succ k ih => rw [updateLastSample, List.length_set, ih]

/-- The cache-update loop only writes indices strictly below its bound. -/
theorem updateLastSample_getD_high (cache vals : List Rat) (off : Nat) :
    ∀ n c, n ≤ c →
      (updateLastSample cache vals off n).getD c 0 = cache.getD c 0 := by
  intro n
  induction n with
  | zero => intro c _; rfl
  | succ k ih =>
      intro c hc
      rw [updateLastSample]
      rcases Nat.lt_or_ge c (updateLastSample cache vals off k).length with h | h
      · have hlen : c < ((updateLastSample cache vals off k).set k
            (vals.getD (off + k) 0)).length := by simpa using h
        rw [List.getD_eq_getElem _ _ hlen]
        have hne := List.getElem_set_ne (l := updateLastSample cache vals off k)
          (a := vals.getD (off + k) 0) (show k ≠ c by omega) hlen
        rw [hne, ← List.getD_eq_getElem _ 0 h]
        exact ih c (by omega)
      · rw [List.getD_eq_default _ _ (by simpa using h)]
        have h2 : cache.length ≤ c := by
          rw [← updateLastSample_length cache vals off k]; exact h
        rw [List.getD_eq_default _ _ h2]

/-- C10: with a channel count of at most 8 every access to the 8-entry
last-sample cache stays in bounds — the cache-update loops
(`updateLastSample`, run with bound `channels`, lines 224-226 and
325-327) leave every index ≥ 8 untouched, and the cache-read loops
(`cacheFrame`, lines 282-286 and 334-338) depend only on the first 8
entries; and `Initialize` performs no check rejecting larger channel
counts: any `cfg.channels > 0` is accepted verbatim (0 defaults to 2),
so the precondition `channels ≤ 8` is required for those accesses to be
in bounds. -/
theorem lastSample_access_bounds (cache vals : List Rat) (off n c : Nat)
    (cfg : TaEngineConfig) (e : Engine) :
    (n ≤ 8 → 8 ≤ c →
      (updateLastSample cache vals off n).getD c 0 = cache.getD c 0) ∧
    (n ≤ 8 → cacheFrame cache n = cacheFrame (cache.take 8) n) ∧
    (e.initialized = false →
      (AudioEngine_Initialize e (some cfg) InitOracle.allOk).1 = .TA_SUCCESS ∧
      (AudioEngine_Initialize e (some cfg) InitOracle.allOk).2.channels
        = (if 0 < cfg.channels then cfg.channels else 2)) := by
  refine ⟨?_, ?_, ?_⟩
  · intro hn hc
    exact updateLastSample_getD_high cache vals off n c (by omega)
  · intro hn
    apply List.map_congr_left
    intro i hi
    rw [List.mem_range] at hi
    rw [List.getD_eq_getElem?_getD, List.getD_eq_getElem?_getD,
      List.getElem?_take_of_lt (by omega)]
  · intro h
    constructor <;> simp [AudioEngine_Initialize, h, InitOracle.allOk]

/-- Witness for C10: updating an 8-entry cache with 2 channels leaves
index 9 alone, reading 2 channels sees only the first 8 entries, and a
9-channel configuration is accepted by `Initialize` with the channel
count stored unchecked. -/
theorem lastSample_access_bounds_witness :
    (updateLastSample (List.replicate 8 0) [1, 2] 0 2).getD 9 0
      = (List.replicate 8 0).getD 9 0 ∧
    cacheFrame (List.replicate 8 0) 2 = cacheFrame ((List.replicate 8 0).take 8) 2 ∧
    (AudioEngine_Initialize Engine.empty
      (some { fixtureConfig with channels := 9 }) InitOracle.allOk).1 = .TA_SUCCESS ∧
    (AudioEngine_Initialize Engine.empty
      (some { fixtureConfig with channels := 9 }) InitOracle.allOk).2.channels = 9 := by
  have h := lastSample_access_bounds (List.replicate 8 0) [1, 2] 0 2 9
    { fixtureConfig with channels := 9 } Engine.empty
  refine ⟨h.1 (by omega) (by omega), h.2.1 (by omega), (h.2.2 (by decide)).1, ?_⟩
  rw [(h.2.2 (by decide)).2]
  decide

/-! ### Capture-side characterisation (towards C1 and C5) -/

/-- Closed form of `capture_callback` when the clamped request is zero
frames (`want = min(frameCount, available_write()) = 0`): only the
overrun counter may change. -/
theorem capture_callback_eq_nowrite (e : Engine) (input : List Rat) (n : Nat)
    (hrun : e.running = true)
    (hmin : min n e.rb.availableWrite = 0) :
    capture_callback e input n
      = { e with overrunCount :=
            if e.rb.availableWrite < n then e.overrunCount + 1 else e.overrunCount } := by
  by_cases hover : e.rb.availableWrite < n
  · have hz : e.rb.availableWrite = 0 := by omega
    have hn : 0 < n := by omega
    simp [capture_callback, hrun, hover, hz, hn]
  · have hz : n = 0 := by omega
    simp [capture_callback, hrun, hover, hz]
    rw [← hrun]

/-- Closed form of `capture_callback` when the clamped request is
positive: one acquire grants `g = grantWrite(want)` frames, the scaled
input prefix is committed, and the cache takes the last written frame. -/
theorem capture_callback_eq_write (e : Engine) (input : List Rat) (n : Nat)
    (hrun : e.running = true) (hcap : 0 < e.rb.capacity)
    (hmin : 0 < min n e.rb.availableWrite) :
    capture_callback e input n
      = { e with
          overrunCount :=
            if e.rb.availableWrite < n then e.overrunCount + 1 else e.overrunCount,
          lastSample := updateLastSample e.lastSample
            ((input.take (e.rb.grantWrite (min n e.rb.availableWrite) * e.channels)).map
              (fun s => s * e.volume))
            ((e.rb.grantWrite (min n e.rb.availableWrite) - 1) * e.channels) e.channels,
          rb := e.rb.commitWrite
            ((input.take (e.rb.grantWrite (min n e.rb.availableWrite) * e.channels)).map
              (fun s => s * e.volume))
            (e.rb.grantWrite (min n e.rb.availableWrite)) } := by
  have hcontig : 0 < e.rb.contigWrite := by
    simp only [RingBuffer.contigWrite]
    have := Nat.mod_lt e.rb.writeCursor hcap
    omega
  have hgpos : 0 < e.rb.grantWrite (min n e.rb.availableWrite) := by
    simp only [RingBuffer.grantWrite, RingBuffer.contigWrite] at *
    omega
  by_cases hover : e.rb.availableWrite < n
  · have hmin' : min n e.rb.availableWrite = e.rb.availableWrite := by omega
    rw [hmin'] at hgpos ⊢
    have hz : ¬ e.rb.availableWrite = 0 := by omega
    simp [capture_callback, hrun, hover, hz, hgpos]
  · have hmin' : min n e.rb.availableWrite = n := by omega
    rw [hmin'] at hgpos ⊢
    have hz : ¬ n = 0 := by omega
    simp [capture_callback, hrun, hover, hz, hgpos]

/-- Complete behavioural characterisation of one `capture_callback`
invocation while Running: with `want = min(frameCount, available_write())`
(the clamp of lines 199-203) and `g = grantWrite want` (the single
acquire of line 210), exactly `g` frames are appended to the readable
contents — each sample the corresponding input sample times the volume —
the write cursor advances by `g`, the read cursor is untouched, and the
overrun counter is bumped exactly when the offer exceeded the free
space. -/
theorem capture_callback_spec (e : Engine) (input : List Rat) (n : Nat)
    (hrun : e.running = true) (hwf : e.WF) (hcap : 0 < e.rb.capacity)
    (hin : n * e.channels ≤ input.length) :
    (capture_callback e input n).rb.contents
      = e.rb.contents
        ++ (input.take (e.rb.grantWrite (min n e.rb.availableWrite) * e.channels)).map
            (fun s => s * e.volume) ∧
    (capture_callback e input n).rb.writeCursor
      = e.rb.writeCursor + e.rb.grantWrite (min n e.rb.availableWrite) ∧
    (capture_callback e input n).rb.readCursor = e.rb.readCursor ∧
    (capture_callback e input n).overrunCount
      = (if e.rb.availableWrite < n then e.overrunCount + 1 else e.overrunCount) ∧
    (capture_callback e input n).underrunCount = e.underrunCount ∧
    (capture_callback e input n).driftCorrectionCount = e.driftCorrectionCount := by
  obtain ⟨hcapeq, hcheq, hstlen, hls, hrbwf⟩ := hwf
  rcases Nat.eq_zero_or_pos (min n e.rb.availableWrite) with hmin | hmin
  · rw [capture_callback_eq_nowrite e input n hrun hmin]
    have hg : e.rb.grantWrite (min n e.rb.availableWrite) = 0 := by
      simp [RingBuffer.grantWrite, hmin]
    rw [hg]
    refine ⟨by simp, rfl, rfl, rfl, rfl, rfl⟩
  · rw [capture_callback_eq_write e input n hrun hcap hmin]
    refine ⟨?_, rfl, rfl, rfl, rfl, rfl⟩
    have hgn : e.rb.grantWrite (min n e.rb.availableWrite) ≤ n := by
      simp only [RingBuffer.grantWrite]
      omega
    apply RingBuffer.contents_commitWrite e.rb _ _ ⟨hrbwf.1, hrbwf.2⟩ hcap
      (by rw [hstlen, hcheq])
    · rw [List.length_map, List.length_take]
      have hle : e.rb.grantWrite (min n e.rb.availableWrite) * e.channels
          ≤ n * e.channels := Nat.mul_le_mul_right _ hgn
      rw [hcheq]
      omega
    · exact le_trans (min_le_right _ _) (min_le_left _ _)
    · exact le_trans (min_le_right _ _) (min_le_right _ _)

/-! ### C1: capture write path -/

/-- C1 counterexample: in the reachable state `fixtureWrapWrite`
(capacity 4, write cursor 3, read cursor 1) a capture invocation offers
2 frames with `available_write() = 2`, so after clamping `want = 2`; the
claim says all 2 frames are written (via a second acquire/commit cycle
across the wrap), but the code performs a single acquire and writes only
the 1 frame up to the wrap boundary: `available_read` grows by 1, not
by 2. -/
theorem capture_wrap_counterexample :
    fixtureWrapWrite.running = true ∧
    fixtureWrapWrite.rb.availableWrite = 2 ∧
    (capture_callback fixtureWrapWrite [8, 9] 2).rb.availableRead
      = fixtureWrapWrite.rb.availableRead + 1 ∧
    ¬ (capture_callback fixtureWrapWrite [8, 9] 2).rb.availableRead
      = fixtureWrapWrite.rb.availableRead + 2 := by
  decide

/-- C1 (amended): after clamping `want` to `available_write()`, the
feeder performs a **single** acquire/commit cycle which grants
`g = min(want, contiguous span before the storage wrap)` frames; it
writes exactly those `g` frames — every written sample equal to the
corresponding input sample multiplied by the current volume scalar —
advancing the write cursor by `g`.  When the request crosses the wrap
boundary the remainder of `want` is dropped (no second cycle); when it
does not (`want ≤ contiguous span`), all `want` frames are written. -/
theorem capture_single_cycle_scaled (e : Engine) (input : List Rat) (n : Nat)
    (hrun : e.running = true) (hwf : e.WF) (hcap : 0 < e.rb.capacity)
    (hin : n * e.channels ≤ input.length) :
    (capture_callback e input n).rb.contents
      = e.rb.contents
        ++ (input.take (e.rb.grantWrite (min n e.rb.availableWrite) * e.channels)).map
            (fun s => s * e.volume) ∧
    (capture_callback e input n).rb.writeCursor
      = e.rb.writeCursor + e.rb.grantWrite (min n e.rb.availableWrite) ∧
    e.rb.grantWrite (min n e.rb.availableWrite)
      = min (min n e.rb.availableWrite) e.rb.contigWrite := by
  have h := capture_callback_spec e input n hrun hwf hcap hin
  refine ⟨h.1, h.2.1, ?_⟩
  simp only [RingBuffer.grantWrite]
  omega

/-- Witness for C1 (amended): the wrap-state fixture, offered 2 frames at
unit volume; the single acquire grants `min(2, 1) = 1` frame and the
written sample is `8 * 1`. -/
theorem capture_single_cycle_scaled_witness :
    (capture_callback fixtureWrapWrite [8, 9] 2).rb.contents
      = fixtureWrapWrite.rb.contents
        ++ (([8, 9].take (fixtureWrapWrite.rb.grantWrite
              (min 2 fixtureWrapWrite.rb.availableWrite)
            * fixtureWrapWrite.channels)).map (fun s => s * fixtureWrapWrite.volume)) ∧
    (capture_callback fixtureWrapWrite [8, 9] 2).rb.writeCursor
      = fixtureWrapWrite.rb.writeCursor
        + fixtureWrapWrite.rb.grantWrite (min 2 fixtureWrapWrite.rb.availableWrite) ∧
    fixtureWrapWrite.rb.grantWrite (min 2 fixtureWrapWrite.rb.availableWrite)
      = min (min 2 fixtureWrapWrite.rb.availableWrite) fixtureWrapWrite.rb.contigWrite :=
  capture_single_cycle_scaled fixtureWrapWrite [8, 9] 2
    (by decide) (by decide) (by decide) (by decide)

/-! ### C5: overrun handling -/

/-- C5 counterexample: in the reachable state `fixtureWrapWrite`
(`available_write() = 2`), a capture invocation offering 6 frames should
per the claim drop exactly the excess 4 frames (writing 2); the code
additionally truncates the clamped write at the wrap boundary, writing
only 1 frame and dropping 5. -/
theorem capture_overrun_excess_counterexample :
    fixtureWrapWrite.running = true ∧
    fixtureWrapWrite.rb.availableWrite = 2 ∧
    (capture_callback fixtureWrapWrite [8, 9, 10, 11, 12, 13] 6).overrunCount
      = fixtureWrapWrite.overrunCount + 1 ∧
    (capture_callback fixtureWrapWrite [8, 9, 10, 11, 12, 13] 6).rb.availableRead
      = fixtureWrapWrite.rb.availableRead + 1 ∧
    ¬ (capture_callback fixtureWrapWrite [8, 9, 10, 11, 12, 13] 6).rb.availableRead
      = fixtureWrapWrite.rb.availableRead + 2 := by
  decide

/-- C5 (amended): a capture invocation while Running offering more frames
than `available_write()` increments the overrun counter by exactly 1
(other counters unchanged), never modifies previously committed buffer
contents (the old readable contents survive as a prefix), and writes
`min(available_write(), contiguous span)` frames — so exactly the excess
is dropped when the clamped write does not cross the wrap boundary, and
additionally the frames beyond the boundary are dropped when it does.
On a full buffer the ring buffer is untouched entirely (in particular
`available_write()` stays 0). -/
theorem capture_overrun (e : Engine) (input : List Rat) (n : Nat)
    (hrun : e.running = true) (hwf : e.WF) (hcap : 0 < e.rb.capacity)
    (hin : n * e.channels ≤ input.length)
    (hover : e.rb.availableWrite < n) :
    (capture_callback e input n).overrunCount = e.overrunCount + 1 ∧
    (capture_callback e input n).underrunCount = e.underrunCount ∧
    (capture_callback e input n).driftCorrectionCount = e.driftCorrectionCount ∧
    ((capture_callback e input n).rb.contents).take e.rb.contents.length
      = e.rb.contents ∧
    (capture_callback e input n).rb.writeCursor
      = e.rb.writeCursor + min e.rb.availableWrite e.rb.contigWrite ∧
    (e.rb.availableWrite = 0 → (capture_callback e input n).rb = e.rb) := by
  have h := capture_callback_spec e input n hrun hwf hcap hin
  refine ⟨?_, h.2.2.2.2.1, h.2.2.2.2.2, ?_, ?_, ?_⟩
  · rw [h.2.2.2.1, if_pos hover]
  · rw [h.1, List.take_left]
  · rw [h.2.1]
    have hmin : min n e.rb.availableWrite = e.rb.availableWrite := by omega
    rw [hmin]
    simp only [RingBuffer.grantWrite]
    omega
  · intro hz
    have hmin0 : min n e.rb.availableWrite = 0 := by omega
    rw [capture_callback_eq_nowrite e input n hrun hmin0]

/-- Witness for C5 at spec Scenario A: the full capacity-8 mono buffer
holding 8 frames of value 1, offered 2 more frames: overrun goes from 0
to 1, the ring buffer (hence its contents) is unchanged, and
`available_write()` is 0 afterwards. -/
theorem capture_overrun_witness :
    ((capture_callback fixture8Full [9, 9] 2).overrunCount
        = fixture8Full.overrunCount + 1 ∧
      (capture_callback fixture8Full [9, 9] 2).rb = fixture8Full.rb) ∧
    fixture8Full.overrunCount = 0 ∧
    fixture8Full.rb.availableWrite = 0 ∧
    (capture_callback fixture8Full [9, 9] 2).rb.availableWrite = 0 := by
  have h := capture_overrun fixture8Full [9, 9] 2
    (by decide) (by decide) (by decide) (by decide) (by decide)
  exact ⟨⟨h.1, h.2.2.2.2.2 (by decide)⟩, by decide, by decide, by decide⟩

theorem updateLastSample_getD_low (cache vals : List Rat) (off : Nat) :
    ∀ n c, c < n → c < cache.length →
      (updateLastSample cache vals off n).getD c 0 = vals.getD (off + c) 0 := by
  intro n
  induction n with
  | zero => intro c hc _; omega
  | succ k ih =>
      intro c hc hlen
      rw [updateLastSample]
      have hl : c < (updateLastSample cache vals off k).length := by
        rw [updateLastSample_length]; exact hlen
      by_cases hck : c = k
      · subst hck
        have hl2 : c < ((updateLastSample cache vals off c).set c
            (vals.getD (off + c) 0)).length := by simpa using hl
        rw [List.getD_eq_getElem _ _ hl2, List.getElem_set_self hl2]
      · have hl2 : c < ((updateLastSample cache vals off k).set k
            (vals.getD (off + k) 0)).length := by simpa using hl
        rw [List.getD_eq_getElem _ _ hl2]
        have hne := List.getElem_set_ne (l := updateLastSample cache vals off k)
          (a := vals.getD (off + k) 0) (show k ≠ c by omega) hl2
        rw [hne, ← List.getD_eq_getElem _ 0 hl]
        exact ih c (by omega) hlen

/-- Closed form of the read/pad phase when the acquire grants no frames. -/
theorem playback_read_eq_zero (e : Engine) (n f : Nat)
    (hz : e.rb.grantRead f = 0) :
    playback_read e n f
      = (e, List.flatten (List.replicate n (cacheFrame e.lastSample e.channels))) := by
  simp [playback_read, hz]

/-- Closed form of the read/pad phase when the acquire grants `g > 0`
frames. -/
theorem playback_read_eq_pos (e : Engine) (n f : Nat)
    (hpos : 0 < e.rb.grantRead f) :
    playback_read e n f
      = ({ e with
            lastSample := updateLastSample e.lastSample
              (sliceD e.rb.storage e.rb.readPos (e.rb.grantRead f * e.channels))
              ((e.rb.grantRead f - 1) * e.channels) e.channels,
            rb := e.rb.commitRead (e.rb.grantRead f) },
         sliceD e.rb.storage e.rb.readPos (e.rb.grantRead f * e.channels)
           ++ List.flatten (List.replicate (n - e.rb.grantRead f)
                (cacheFrame
                  (updateLastSample e.lastSample
                    (sliceD e.rb.storage e.rb.readPos (e.rb.grantRead f * e.channels))
                    ((e.rb.grantRead f - 1) * e.channels) e.channels)
                  e.channels))) := by
  simp [playback_read, hpos]

/-- Behavioural characterisation of the read/pad phase (lines 312-339):
one acquire grants `g = grantRead(framesToRead)` frames; the output
starts with exactly those `g` frames of the readable contents, the read
cursor advances by `g`, the remaining contents are the old contents less
that prefix, the counters are untouched, and the rest of the output is
the padded cache. -/
theorem playback_read_spec (e : Engine) (n f : Nat)
    (hwf : e.WF) (hcap : 0 < e.rb.capacity) :
    ((playback_read e n f).2).take (e.rb.grantRead f * e.channels)
      = e.rb.contents.take (e.rb.grantRead f * e.channels) ∧
    (playback_read e n f).1.rb.readCursor
      = e.rb.readCursor + e.rb.grantRead f ∧
    (playback_read e n f).1.rb.contents
      = e.rb.contents.drop (e.rb.grantRead f * e.channels) ∧
    (playback_read e n f).1.underrunCount = e.underrunCount ∧
    (playback_read e n f).1.overrunCount = e.overrunCount ∧
    (playback_read e n f).1.driftCorrectionCount = e.driftCorrectionCount ∧
    (playback_read e n f).2
      = e.rb.contents.take (e.rb.grantRead f * e.channels)
        ++ List.flatten (List.replicate (n - e.rb.grantRead f)
            (cacheFrame (playback_read e n f).1.lastSample e.channels)) := by
  obtain ⟨hcapeq, hcheq, hstlen, hls, hrbwf⟩ := hwf
  rcases Nat.eq_zero_or_pos (e.rb.grantRead f) with hz | hpos
  · rw [playback_read_eq_zero e n f hz, hz]
    simp
  · have hsl : sliceD e.rb.storage e.rb.readPos (e.rb.grantRead f * e.channels)
        = e.rb.contents.take (e.rb.grantRead f * e.channels) := by
      rw [← hcheq]
      exact RingBuffer.sliceD_eq_contents_take e.rb _ hcap
        (le_trans (min_le_right _ _) (min_le_left _ _))
        (le_trans (min_le_right _ _) (min_le_right _ _))
    rw [playback_read_eq_pos e n f hpos]
    refine ⟨?_, rfl, ?_, rfl, rfl, rfl, ?_⟩
    · have hlen : (sliceD e.rb.storage e.rb.readPos
          (e.rb.grantRead f * e.channels)).length
          = e.rb.grantRead f * e.channels := RingBuffer.sliceD_length _ _ _
      rw [List.take_left' hlen]
      exact hsl
    · have hgle : e.rb.grantRead f ≤ e.rb.availableRead :=
        le_trans (min_le_right _ _) (min_le_left _ _)
      have h := RingBuffer.contents_commitRead e.rb (e.rb.grantRead f) hgle
      rw [← hcheq]
      exact h
    · rw [hsl]

/-- The read/pad phase refreshes the cache from the final copied frame:
after a positive grant `g`, cache entry `c` (for each channel `c`) holds
sample `c` of frame `g - 1` of the pre-read contents. -/
theorem playback_read_cache (e : Engine) (n f : Nat)
    (hwf : e.WF) (hcap : 0 < e.rb.capacity) (hch : e.channels ≤ 8)
    (hpos : 0 < e.rb.grantRead f) :
    ∀ c, c < e.channels →
      (playback_read e n f).1.lastSample.getD c 0
        = e.rb.contents.getD ((e.rb.grantRead f - 1) * e.channels + c) 0 := by
  obtain ⟨hcapeq, hcheq, hstlen, hls, hrbwf⟩ := hwf
  intro c hc
  have hsl : sliceD e.rb.storage e.rb.readPos (e.rb.grantRead f * e.channels)
      = e.rb.contents.take (e.rb.grantRead f * e.channels) := by
    rw [← hcheq]
    exact RingBuffer.sliceD_eq_contents_take e.rb _ hcap
      (le_trans (min_le_right _ _) (min_le_left _ _))
      (le_trans (min_le_right _ _) (min_le_right _ _))
  rw [playback_read_eq_pos e n f hpos]
  have hup := updateLastSample_getD_low e.lastSample
    (sliceD e.rb.storage e.rb.readPos (e.rb.grantRead f * e.channels))
    ((e.rb.grantRead f - 1) * e.channels) e.channels c hc (by omega)
  rw [hup, hsl]
  have hidx : (e.rb.grantRead f - 1) * e.channels + c
      < e.rb.grantRead f * e.channels :=
    RingBuffer.mul_index_lt (by omega) hc
  rw [List.getD_eq_getElem?_getD, List.getD_eq_getElem?_getD,
    List.getElem?_take_of_lt hidx]

/-- Closed form of the drift phase in the high-fill branch (lines
293-310): one frame is acquired and committed without being copied, and
the drift-correction counter is bumped. -/
theorem playback_drift_highfill_eq (e : Engine) (n : Nat)
    (hwf : e.WF) (hfill : 75 < fillPercent e) (hn : n + 1 < e.rb.availableRead) :
    playback_drift e n
      = .proceed ({ e with driftCorrectionCount := e.driftCorrectionCount + 1,
                           rb := e.rb.commitRead 1 }) n := by
  have hcap : 0 < e.ringBufferSizeInFrames := by
    by_contra h
    have h0 : e.ringBufferSizeInFrames = 0 := by omega
    have hz : fillPercent e = 0 := by simp [fillPercent, h0]
    omega
  have hcapeq : e.rb.capacity = e.ringBufferSizeInFrames := hwf.1
  have hnot25 : ¬ fillPercent e < 25 := by omega
  have hgrant : e.rb.grantRead 1 = 1 := by
    have h1 : 0 < e.rb.availableRead := by omega
    have h2 : e.rb.readCursor % e.rb.capacity < e.rb.capacity :=
      Nat.mod_lt _ (by omega)
    simp only [RingBuffer.grantRead, RingBuffer.contigRead]
    omega
  simp only [playback_drift]
  rw [if_neg hnot25, if_pos (show 75 < fillPercent e ∧ n + 1 < e.rb.availableRead
    from ⟨hfill, hn⟩)]
  simp [hgrant]

/-! ### C2: playback read path -/

/-- `framesToRead` chosen by the drift decision, `none` on the
full-underrun early return. -/
def DriftOutcome.framesChosen : DriftOutcome → Option Nat
  | .earlyReturn _ _ => none
  | .proceed _ f => some f

/-- C2 counterexample: in the reachable state `fixtureWrapRead`
(capacity 4, read cursor 3, 2 readable frames, the next read wrapping
after 1 frame) the drift decision sets `framesToRead = 2`, but the
drainer performs a single acquire/commit cycle and advances the read
cursor by only 1 frame — it does not loop to read the second granted
region across the wrap. -/
theorem playback_wrap_counterexample :
    fixtureWrapRead.running = true ∧
    fixtureWrapRead.rb.availableRead = 2 ∧
    (playback_drift fixtureWrapRead 2).framesChosen = some 2 ∧
    (playback_callback fixtureWrapRead 2).1.rb.readCursor
      = fixtureWrapRead.rb.readCursor + 1 ∧
    ¬ (playback_callback fixtureWrapRead 2).1.rb.readCursor
      = fixtureWrapRead.rb.readCursor + 2 := by
  decide

/-- C2 (amended): in every playback invocation while Running in which the
drift decision sets `framesToRead`, the drainer performs a **single**
acquire/commit cycle: the acquire grants
`g = min(framesToRead, available_read(), contiguous span before wrap)`
frames, exactly those `g` frames of the readable contents are copied to
the output at offset 0, the read cursor advances by `g`, the last-sample
cache is updated from the final frame actually copied (when `g > 0`),
and the remaining `frameCount - g` output frames repeat that cache; no
second cycle reads past the wrap boundary. -/
theorem playback_single_cycle (e e1 : Engine) (n f : Nat)
    (hrun : e.running = true) (hwf : e1.WF) (hcap : 0 < e1.rb.capacity)
    (hch : e1.channels ≤ 8)
    (hdrift : playback_drift e n = .proceed e1 f) :
    e1.rb.grantRead f = min f (min e1.rb.availableRead e1.rb.contigRead) ∧
    ((playback_callback e n).2).take (e1.rb.grantRead f * e1.channels)
      = e1.rb.contents.take (e1.rb.grantRead f * e1.channels) ∧
    (playback_callback e n).1.rb.readCursor = e1.rb.readCursor + e1.rb.grantRead f ∧
    (0 < e1.rb.grantRead f → ∀ c, c < e1.channels →
      (playback_callback e n).1.lastSample.getD c 0
        = e1.rb.contents.getD ((e1.rb.grantRead f - 1) * e1.channels + c) 0) ∧
    (playback_callback e n).2
      = e1.rb.contents.take (e1.rb.grantRead f * e1.channels)
        ++ List.flatten (List.replicate (n - e1.rb.grantRead f)
            (cacheFrame (playback_callback e n).1.lastSample e1.channels)) := by
  have hred : playback_callback e n = playback_read e1 n f := by
    simp [playback_callback, hrun, hdrift]
  have hspec := playback_read_spec e1 n f hwf hcap
  rw [hred]
  exact ⟨rfl, hspec.1, hspec.2.1,
    fun hpos => playback_read_cache e1 n f hwf hcap hch hpos,
    hspec.2.2.2.2.2.2⟩

/-- Witness for C2 at the wrap-state fixture: requesting 2 frames with 2
readable but only 1 contiguous frame, the drift decision proceeds with
`framesToRead = 2` and the single cycle grants 1 frame. -/
theorem playback_single_cycle_witness :
    fixtureWrapRead.rb.grantRead 2
      = min 2 (min fixtureWrapRead.rb.availableRead fixtureWrapRead.rb.contigRead) ∧
    ((playback_callback fixtureWrapRead 2).2).take
        (fixtureWrapRead.rb.grantRead 2 * fixtureWrapRead.channels)
      = fixtureWrapRead.rb.contents.take
          (fixtureWrapRead.rb.grantRead 2 * fixtureWrapRead.channels) ∧
    (playback_callback fixtureWrapRead 2).1.rb.readCursor
      = fixtureWrapRead.rb.readCursor + fixtureWrapRead.rb.grantRead 2 ∧
    (0 < fixtureWrapRead.rb.grantRead 2 → ∀ c, c < fixtureWrapRead.channels →
      (playback_callback fixtureWrapRead 2).1.lastSample.getD c 0
        = fixtureWrapRead.rb.contents.getD
            ((fixtureWrapRead.rb.grantRead 2 - 1) * fixtureWrapRead.channels + c) 0) ∧
    (playback_callback fixtureWrapRead 2).2
      = fixtureWrapRead.rb.contents.take
          (fixtureWrapRead.rb.grantRead 2 * fixtureWrapRead.channels)
        ++ List.flatten (List.replicate (2 - fixtureWrapRead.rb.grantRead 2)
            (cacheFrame (playback_callback fixtureWrapRead 2).1.lastSample
              fixtureWrapRead.channels)) := by
  have h1 : ¬ fillPercent fixtureWrapRead < 25 := by decide
  have h2 : ¬ (75 < fillPercent fixtureWrapRead
      ∧ 2 + 1 < fixtureWrapRead.rb.availableRead) := by decide
  have hdrift : playback_drift fixtureWrapRead 2 = .proceed fixtureWrapRead 2 := by
    simp [playback_drift, h1, h2]
  exact playback_single_cycle fixtureWrapRead fixtureWrapRead 2 2
    (by decide) (by decide) (by decide) (by decide) hdrift

/-! ### C4: high-fill one-frame discard -/

/-- C4: in every playback invocation while Running with fill above 75%
(integer fill percentage of lines 261-263) and
`available_read() > frameCount + 1`, exactly one frame is discarded from
the ring buffer without appearing in any output: the drift-correction
counter rises by exactly 1, underrun and overrun counters are unchanged,
the read cursor advances by `1 + g` where `g` is the frames granted to
the subsequent output read, and the copied output is the contents
*after* the discarded first frame. -/
theorem playback_highfill_discard (e : Engine) (n : Nat)
    (hrun : e.running = true) (hwf : e.WF)
    (hfill : 75 < fillPercent e) (hn : n + 1 < e.rb.availableRead) :
    (playback_callback e n).1.driftCorrectionCount = e.driftCorrectionCount + 1 ∧
    (playback_callback e n).1.underrunCount = e.underrunCount ∧
    (playback_callback e n).1.overrunCount = e.overrunCount ∧
    (playback_callback e n).1.rb.readCursor
      = e.rb.readCursor + 1 + (e.rb.commitRead 1).grantRead n ∧
    ((playback_callback e n).2).take ((e.rb.commitRead 1).grantRead n * e.channels)
      = (e.rb.contents.drop e.channels).take
          ((e.rb.commitRead 1).grantRead n * e.channels) := by
  have hwf' := hwf
  obtain ⟨hcapeq, hcheq, hstlen, hls, hrbwf⟩ := hwf'
  have hcap : 0 < e.ringBufferSizeInFrames := by
    by_contra h
    have h0 : e.ringBufferSizeInFrames = 0 := by omega
    have hz : fillPercent e = 0 := by simp [fillPercent, h0]
    omega
  have hdrift := playback_drift_highfill_eq e n hwf hfill hn
  have hred : playback_callback e n
      = playback_read ({ e with driftCorrectionCount := e.driftCorrectionCount + 1, rb := e.rb.commitRead 1 }) n n := by
    simp [playback_callback, hrun, hdrift]
  have hwf2 : Engine.WF ({ e with driftCorrectionCount := e.driftCorrectionCount + 1, rb := e.rb.commitRead 1 }) := by
    refine ⟨hcapeq, hcheq, hstlen, hls, ?_, ?_⟩ <;>
      simp only [RingBuffer.commitRead] <;> obtain ⟨h1, h2⟩ := hrbwf <;>
      simp only [RingBuffer.availableRead] at hn <;> omega
  have hcap2 : 0 < (({ e with driftCorrectionCount := e.driftCorrectionCount + 1, rb := e.rb.commitRead 1 } : Engine)).rb.capacity := by
    simp only [RingBuffer.commitRead]
    omega
  have hspec := playback_read_spec _ n n hwf2 hcap2
  have hcont : (e.rb.commitRead 1).contents
      = e.rb.contents.drop e.channels := by
    have h := RingBuffer.contents_commitRead e.rb 1
      (by simp only [RingBuffer.availableRead] at hn ⊢; omega)
    rw [h, Nat.one_mul, hcheq]
  rw [hred]
  refine ⟨?_, hspec.2.2.2.1, hspec.2.2.2.2.1, ?_, ?_⟩
  · rw [show (playback_read ({ e with driftCorrectionCount := e.driftCorrectionCount + 1, rb := e.rb.commitRead 1 }) n n).1.driftCorrectionCount
      = e.driftCorrectionCount + 1 from hspec.2.2.2.2.2.1]
  · rw [hspec.2.1]
    simp [RingBuffer.commitRead, Nat.add_assoc]
  · rw [hspec.1]
    rw [show (({ e with driftCorrectionCount := e.driftCorrectionCount + 1, rb := e.rb.commitRead 1 } : Engine)).rb.contents
      = e.rb.contents.drop e.channels from hcont]

/-- Witness for C4: the 100%-full 4-frame fixture asked for 1 frame
(4 > 1 + 1) — the counters move as claimed and the cursor accounts for
the discarded frame plus the granted read. -/
theorem playback_highfill_discard_witness :
    (playback_callback fixtureHighFill 1).1.driftCorrectionCount
      = fixtureHighFill.driftCorrectionCount + 1 ∧
    (playback_callback fixtureHighFill 1).1.underrunCount
      = fixtureHighFill.underrunCount ∧
    (playback_callback fixtureHighFill 1).1.overrunCount
      = fixtureHighFill.overrunCount ∧
    (playback_callback fixtureHighFill 1).1.rb.readCursor
      = fixtureHighFill.rb.readCursor + 1
        + (fixtureHighFill.rb.commitRead 1).grantRead 1 ∧
    ((playback_callback fixtureHighFill 1).2).take
        ((fixtureHighFill.rb.commitRead 1).grantRead 1 * fixtureHighFill.channels)
      = (fixtureHighFill.rb.contents.drop fixtureHighFill.channels).take
          ((fixtureHighFill.rb.commitRead 1).grantRead 1 * fixtureHighFill.channels) :=
  playback_highfill_discard fixtureHighFill 1
    (by decide) (by decide) (by decide) (by decide)


/-- C6: every state reachable from a fresh ring buffer by any sequence of
acquire/commit write, acquire/commit read and reset operations respecting
the SPSC acquire/commit contract satisfies
`available_read() + available_write() == capacity`. -/
theorem ringBuffer_read_add_write_eq_capacity
    (capacity channels : Nat) (ops : List RingBuffer.Op) :
    ((RingBuffer.init capacity channels).applyOps ops).availableRead +
      ((RingBuffer.init capacity channels).applyOps ops).availableWrite = capacity := by
  have hwf := RingBuffer.wf_applyOps (RingBuffer.wf_init capacity channels) ops
  rw [RingBuffer.read_add_write_of_wf hwf,
    RingBuffer.capacity_applyOps]
  rfl

end AudioGlass
